import Mathlib

/-!
# BigAmbitions-Dashboard: verification of the ingestion/classification core

Shallow embedding of the data pipeline of `src/app.py` (the `get_companies`
function and the `update_data` / `update_graphs` callbacks of `create_app`).

Modelling conventions:
* pandas numeric values (`pd.to_numeric`) are modelled as `ℚ`; the numeric
  parser accepts an optional sign, digits and an optional decimal fraction,
  which covers the decimal literals `pd.to_numeric` is supplied here.
* text processing is done on `List Char` with hand-rolled, fully executable
  helpers mirroring the Python string operations used by the source
  (`split`, `strip`, `in`, `str.lower`, `re.search`, `pandas.Series.str.contains`).
* `pandas.Series.str.contains(pat)` treats `pat` as a regular expression
  (`regex=True` is the pandas default).  The patterns reaching it in this
  program are `'|'.join(keywords)`; the model implements the regex fragment
  those patterns can exercise through characters occurring in descriptions:
  literal characters, the `.` wildcard and top-level `|` alternation.
* Python `set`/`dict` iteration order is unspecified; the model enumerates
  the inferred companies in first-insertion order.  Every claim settled
  against the inferred table is insensitive to that order.
* the Dash plumbing (widgets, figures, slider marks) is out of scope; of the
  `update_data` callback outputs only `stored-data` and `upload-status` are
  modelled, and the base64/UTF-8 decoding plus CSV tokenisation stage is
  modelled as an `Option` input (`none` = the decode raised, which the
  `except` clause of `update_data` turns into a failure result).
-/

namespace BigAmbitions

/-! ## Character-list string helpers (Python string operations) -/

/-- `startsWithL pat s`: `s` begins with `pat` (exact characters). -/
def startsWithL : List Char → List Char → Bool
  | [], _ => true
  | _ :: _, [] => false
  | p :: ps, c :: cs => p = c && startsWithL ps cs

/-- `containsL pat s`: Python `pat in s` — `pat` occurs as a contiguous
substring of `s`. -/
def containsL (pat : List Char) : List Char → Bool
  | [] => startsWithL pat []
  | c :: rest => startsWithL pat (c :: rest) || containsL pat rest

/-- Python `s.split(pat)[0]` for a non-empty separator `pat`: the text before
the first occurrence of `pat`, the whole of `s` when `pat` does not occur. -/
def beforeFirst (pat : List Char) : List Char → List Char
  | [] => []
  | c :: rest =>
    if startsWithL pat (c :: rest) then [] else c :: beforeFirst pat rest

/-- Python `s.strip()`: drop whitespace from both ends. -/
def trimL (s : List Char) : List Char :=
  ((s.dropWhile Char.isWhitespace).reverse.dropWhile Char.isWhitespace).reverse

/-- Split on every occurrence of a separator character (Python `s.split(sep)`
for a one-character separator; also regex top-level alternation splitting). -/
def splitOnChar (sep : Char) : List Char → List (List Char)
  | [] => [[]]
  | c :: rest =>
    if c = sep then [] :: splitOnChar sep rest
    else
      match splitOnChar sep rest with
      | [] => [[c]]
      | b :: bs => (c :: b) :: bs

/-- Python `'|'.join`, on character lists. -/
def joinBar : List (List Char) → List Char
  | [] => []
  | [k] => k
  | k :: rest => k ++ '|' :: joinBar rest

/-- Lower-case a character list (Python `str.lower`, ASCII range). -/
def lowerL (s : List Char) : List Char := s.map Char.toLower

/-- Python `str.lower` on a string. -/
def lowerS (s : String) : String := ⟨lowerL s.data⟩

/-- Python `s.endswith(pat)`. -/
def endsWithL (pat s : List Char) : Bool := startsWithL pat.reverse s.reverse

/-! ## The regex fragment used by the classifier

`update_data` classifies with
`df['Description'].str.lower().str.contains('|'.join(keywords), case=False)`.
pandas interprets the pattern as a regular expression.  The fragment the
program's patterns can exercise (keywords are lower-cased description
prefixes) is modelled: a branch is a sequence of pattern characters where
`.` matches any character, branches are separated by top-level `|`, and
matching is case-insensitive (`case=False`). -/

/-- One pattern character matches one subject character (case-insensitively,
`.` is the wildcard). -/
def charMatches (p c : Char) : Bool := p = '.' || p.toLower = c.toLower

/-- A branch (no `|`) matches at the head of the subject. -/
def branchStarts : List Char → List Char → Bool
  | [], _ => true
  | _ :: _, [] => false
  | p :: ps, c :: cs => charMatches p c && branchStarts ps cs

/-- A branch matches somewhere inside the subject (regex *search*). -/
def branchFound (pat : List Char) : List Char → Bool
  | [] => branchStarts pat []
  | c :: rest => branchStarts pat (c :: rest) || branchFound pat rest

/-- `regexFound pat s`: the pattern `pat` (branches separated by `|`) is
found in `s`. -/
def regexFound (pat s : List Char) : Bool :=
  (splitOnChar '|' pat).any (fun br => branchFound br s)

/-! ## Numeric parsing (`pd.to_numeric`) -/

/-- Decimal digits to a natural number. -/
def digitsToNat (ds : List Char) : Nat :=
  ds.foldl (fun n c => 10 * n + (c.toNat - ('0').toNat)) 0

/-- All characters are decimal digits. -/
def allDigits (ds : List Char) : Bool := ds.all Char.isDigit

/-- Unsigned decimal literal: digits with an optional fractional part. -/
def parseUnsigned (s : List Char) : Option ℚ :=
  match splitOnChar '.' s with
  | [ds] =>
    if ds ≠ [] ∧ allDigits ds then some (digitsToNat ds : ℚ) else none
  | [ip, fp] =>
    if (ip ≠ [] ∨ fp ≠ []) ∧ allDigits ip ∧ allDigits fp then
      some ((digitsToNat ip : ℚ) + (digitsToNat fp : ℚ) / (10 : ℚ) ^ fp.length)
    else none
  | _ => none

/-- `pd.to_numeric` on one cell, for decimal literals: optional surrounding
whitespace, optional sign, digits, optional fraction.  `none` models the
`ValueError` `pd.to_numeric` raises on a non-numeric string. -/
def parseRat (s : String) : Option ℚ :=
  match trimL s.data with
  | '-' :: rest => (parseUnsigned rest).map Neg.neg
  | '+' :: rest => parseUnsigned rest
  | rest => parseUnsigned rest

/-! ## The transaction record and the loader/normalizer

`update_data` (src/app.py lines 410-432) reads the CSV into columns
`Description, Day, Type, Amount, ID`, converts `Day` and `Amount` with
`pd.to_numeric`, derives `IncomeOrExpense` from the sign of `Amount`,
replaces `Amount` by its absolute value, initialises `Company` to
`"Other"`, classifies, and finally keeps the columns
`Description, Company, Day, Type, Amount, IncomeOrExpense` (dropping `ID`).

Line 419, `df.apply(lambda x: x.str.strip() if isinstance(x, str) else x)`,
is a no-op: `x` is a pandas `Series`, never a `str`, so the branch stripping
whitespace is never taken.  The model therefore does not strip fields. -/

structure Rec where
  description : String
  day : ℚ
  type : String
  /-- After normalization this column holds the magnitude `|amount|`. -/
  amount : ℚ
  /-- The `IncomeOrExpense` column: `"Income"` or `"Expense"`. -/
  polarity : String
  company : String
  deriving Repr, DecidableEq

/-- Line 422: `'Income' if x > 0 else 'Expense'` applied to the signed
amount. -/
def incomeOrExpense (x : ℚ) : String := if 0 < x then "Income" else "Expense"

/-- Line 423: `df['Amount'].abs()` on one cell. -/
def ratAbs (x : ℚ) : ℚ := if x < 0 then -x else x

/-- Parse and normalize one CSV row (five cells, `ID` dropped at line 432). -/
def parseRow (row : List String) : Except String Rec :=
  match row with
  | [d, dayS, ty, amS, _id] =>
    match parseRat dayS with
    | none => Except.error ("Unable to parse string \"" ++ dayS ++ "\"")
    | some day =>
      match parseRat amS with
      | none => Except.error ("Unable to parse string \"" ++ amS ++ "\"")
      | some am =>
        Except.ok
          { description := d, day := day, type := ty,
            amount := ratAbs am, polarity := incomeOrExpense am,
            company := "Other" }
  | _ => Except.error "Error tokenizing data: expected 5 fields"

/-- Load every row; any bad row fails the whole load (the exception
propagates to the `except` clause of `update_data`). -/
def loadRows : List (List String) → Except String (List Rec)
  | [] => Except.ok []
  | row :: rest =>
    match parseRow row with
    | Except.error e => Except.error e
    | Except.ok r =>
      match loadRows rest with
      | Except.error e => Except.error e
      | Except.ok rs => Except.ok (r :: rs)

instance {ε α : Type} [DecidableEq ε] [DecidableEq α] :
    DecidableEq (Except ε α) := fun x y =>
  match x, y with
  | Except.ok a, Except.ok b =>
    if h : a = b then isTrue (by rw [h]) else isFalse (fun hc => h (Except.ok.inj hc))
  | Except.error a, Except.error b =>
    if h : a = b then isTrue (by rw [h]) else isFalse (fun hc => h (Except.error.inj hc))
  | Except.ok _, Except.error _ => isFalse (fun hc => Except.noConfusion hc)
  | Except.error _, Except.ok _ => isFalse (fun hc => Except.noConfusion hc)

/-! ## Dynamic company inference (`get_companies`, src/app.py lines 28-61)

Python builds `set`s and a `dict`; their iteration order is unspecified, so
the model collects companies in first-insertion order. -/

/-- Add to the back unless already present (deterministic `set.add`). -/
def insertNew (c : String) (acc : List String) : List String :=
  if c ∈ acc then acc else acc ++ [c]

/-- `description.split(' Revenue')[0].strip()` (line 39). -/
def revenueName (d : String) : String :=
  ⟨trimL (beforeFirst (" Revenue").data d.data)⟩

/-- Loop body of the revenue pass (lines 38-41): `if company_name:
revenue_companies.add(company_name)`. -/
def revStep (acc : List String) (r : Rec) : List String :=
  let n := revenueName r.description
  if n ≠ "" then insertNew n acc else acc

/-- Revenue pass (lines 33-41): records with `Amount > 0` whose description
contains `"Revenue"` contribute the non-empty trimmed text before
`" Revenue"`.  Note `get_companies` runs after `update_data` replaced
`Amount` with its absolute value, so `Amount > 0` holds for every record
whose original amount was non-zero. -/
def revenueCompanies (recs : List Rec) : List String :=
  (recs.filter
      (fun r => decide (0 < r.amount) && containsL ("Revenue").data r.description.data)).foldl
    revStep []

/-- The tail of the regex `\((.*?) Daily Wage\)` after the opening paren. -/
def wageTail : List Char := (" Daily Wage)").data

/-- `re.search(r'\((.*?) Daily Wage\)', s)`, returning `group(1)`: at the
leftmost `(` that is followed (anywhere later) by `" Daily Wage)"`, the
non-greedy group is the text up to the first such occurrence. -/
def extractWage : List Char → Option (List Char)
  | [] => none
  | c :: rest =>
    if c = '(' ∧ containsL wageTail rest then some (beforeFirst wageTail rest)
    else extractWage rest

/-- Loop body of the headquarters pass (lines 47-52): extract the group,
strip it, keep it only when it is literally `"Best Inc"`. -/
def hqStep (acc : List String) (r : Rec) : List String :=
  match extractWage r.description.data with
  | none => acc
  | some g =>
    let company : String := ⟨trimL g⟩
    if company = "Best Inc" then insertNew company acc else acc

/-- Headquarters pass (lines 43-52): records whose description contains
`"Daily Wage"`; the extracted, stripped group is kept only when it equals
the literal `"Best Inc"`. -/
def hqCompanies (recs : List Rec) : List String :=
  (recs.filter (fun r => containsL ("Daily Wage").data r.description.data)).foldl
    hqStep []

/-- `revenue_companies.union(headquarters)` (line 55), in first-insertion
order. -/
def allCompanies (recs : List Rec) : List String :=
  (hqCompanies recs).foldl (fun acc c => insertNew c acc) (revenueCompanies recs)

/-- `get_companies` (lines 28-61): each company maps to the singleton
keyword list `[company.lower()]`. -/
def getCompanies (recs : List Rec) : List (String × List String) :=
  (allCompanies recs).map (fun c => (c, [lowerS c]))

/-! ## The classifier (src/app.py lines 428-430)

```
for company, keywords in companies_dict.items():
    mask = df['Description'].str.lower().str.contains('|'.join(keywords), case=False)
    df.loc[mask, 'Company'] = company
```
-/

/-- The mask of one iteration, for one record: the lower-cased description
is searched for the regex `'|'.join(keywords)` case-insensitively. -/
def entryMatches (keywords : List String) (d : String) : Bool :=
  regexFound (joinBar (keywords.map String.data)) (lowerL d.data)

/-- One loop iteration: set `Company` to `company` on every matching row. -/
def applyEntry (company : String) (keywords : List String) (recs : List Rec) :
    List Rec :=
  recs.map (fun r =>
    if entryMatches keywords r.description then { r with company := company } else r)

/-- The whole classification loop over the table in iteration order. -/
def classify (table : List (String × List String)) (recs : List Rec) : List Rec :=
  table.foldl (fun acc e => applyEntry e.1 e.2 acc) recs

/-- The company a single record ends with: the fold of the loop's
per-record update over the table. -/
def finalCompany (table : List (String × List String)) (d : String)
    (c : String) : String :=
  table.foldl (fun acc e => if entryMatches e.2 d then e.1 else acc) c

/-! ## The `update_data` callback result (src/app.py lines 402-461) -/

/-- Parse, normalize and classify with the dynamically inferred table
(lines 413-432). -/
def loadAndClassify (rows : List (List String)) : Except String (List Rec) :=
  match loadRows rows with
  | Except.error e => Except.error e
  | Except.ok recs => Except.ok (classify (getCompanies recs) recs)

/-- The two modelled outputs of `update_data`: the new `stored-data` value
and the `upload-status` text. -/
structure LoadOutcome where
  stored : Option (List Rec)
  message : String
  deriving Repr, DecidableEq

/-- `update_data` (lines 402-461).  `content = none` models a raised
decode/tokenize exception (base64, UTF-8 or the CSV reader), which the
`except` clause converts into a failure result; otherwise `content` is the
tokenised rows. -/
def updateData (filename : String) (content : Option (List (List String))) :
    LoadOutcome :=
  if endsWithL (".csv").data filename.data then
    match content with
    | none => ⟨none, "Error processing file: could not decode file"⟩
    | some rows =>
      match loadAndClassify rows with
      | Except.error e => ⟨none, "Error processing file: " ++ e⟩
      | Except.ok recs => ⟨some recs, "File uploaded successfully!"⟩
  else ⟨none, "Please upload a CSV file"⟩

/-- The `dcc.Store` value after the callback runs: Dash replaces the store's
`data` property with the first output of `update_data`, whatever was stored
before. -/
def storeAfterLoad (_prev : Option (List Rec)) (filename : String)
    (content : Option (List (List String))) : Option (List Rec) :=
  (updateData filename content).stored

/-! ## The filter of `update_graphs` (src/app.py lines 241-246) -/

/-- Keep the records inside the inclusive day range whose company and type
are selected. -/
def filterRecords (lo hi : ℚ) (companies types : List String)
    (recs : List Rec) : List Rec :=
  recs.filter (fun r =>
    decide (lo ≤ r.day) && decide (r.day ≤ hi) &&
      decide (r.company ∈ companies) && decide (r.type ∈ types))

end BigAmbitions

namespace BigAmbitions

/-! ## Helper lemmas about the classifier -/

/-- The per-record view of the classification loop. -/
theorem classify_eq_map (table : List (String × List String)) (recs : List Rec) :
    classify table recs =
      recs.map (fun r =>
        { r with company := finalCompany table r.description r.company }) := by
  induction table generalizing recs with
  | nil =>
    simp only [classify, List.foldl_nil, finalCompany]
    exact (List.map_id recs).symm
  | cons e t ih =>
    have h : classify (e :: t) recs = classify t (applyEntry e.1 e.2 recs) := rfl
    rw [h, ih, applyEntry, List.map_map]
    refine congrArg (fun f => List.map f recs) (funext fun r => ?_)
    by_cases hm : entryMatches e.2 r.description
    · simp [Function.comp, hm, finalCompany]
    · simp [Function.comp, hm, finalCompany]

/-- The loop preserves the number of records. -/
theorem classify_length (table : List (String × List String)) (recs : List Rec) :
    (classify table recs).length = recs.length := by
  rw [classify_eq_map]; exact List.length_map _ _

/-- The final company of one record is the last matching table entry's
name, the initial company when nothing matches. -/
theorem finalCompany_eq_getLast (table : List (String × List String))
    (d c : String) :
    finalCompany table d c =
      ((((table.filter (fun e => entryMatches e.2 d)).getLast?).map Prod.fst).getD c) := by
  induction table generalizing c with
  | nil => rfl
  | cons e t ih =>
    have hster : finalCompany (e :: t) d c =
        finalCompany t d (if entryMatches e.2 d then e.1 else c) := rfl
    by_cases hm : entryMatches e.2 d
    · rw [hster, if_pos hm, ih]
      rw [List.filter_cons_of_pos (p := fun q : String × List String => entryMatches q.2 d) hm]
      cases hft : (t.filter (fun e => entryMatches e.2 d)) with
      | nil => simp
      | cons x xs =>
        obtain ⟨y, hy⟩ := Option.isSome_iff_exists.mp
          (List.getLast?_isSome.mpr (List.cons_ne_nil x xs))
        simp [hy]
    · rw [hster, if_neg hm, ih,
        List.filter_cons_of_neg (p := fun q : String × List String => entryMatches q.2 d) hm]

/-- Re-running the per-record fold changes nothing. -/
theorem finalCompany_idem (table : List (String × List String)) (d c : String) :
    finalCompany table d (finalCompany table d c) = finalCompany table d c := by
  induction table generalizing c with
  | nil => rfl
  | cons e t ih =>
    have hster : ∀ c', finalCompany (e :: t) d c' =
        finalCompany t d (if entryMatches e.2 d then e.1 else c') := fun _ => rfl
    by_cases hm : entryMatches e.2 d
    · have h1 : ∀ x, finalCompany (e :: t) d x = finalCompany t d e.1 := by
        intro x; rw [hster, if_pos hm]
      rw [h1, h1]
    · have h1 : ∀ x, finalCompany (e :: t) d x = finalCompany t d x := by
        intro x; rw [hster, if_neg hm]
      rw [h1, h1, ih]

/-- **C9**: Classification is idempotent: for every classification table and
every record set, applying the classifier twice with the same table yields
the same company labels as applying it once (in fact the very same records). -/
theorem classify_idempotent (table : List (String × List String))
    (recs : List Rec) :
    classify table (classify table recs) = classify table recs := by
  simp only [classify_eq_map, List.map_map]
  refine congrArg (fun f => List.map f recs) (funext fun r => ?_)
  simp [Function.comp, finalCompany_idem]

/-- **C3**: for every record and every classification table, if two or more
entries of the table match the record's description, the company label the
classifier assigns to that record is the name of the matching entry
appearing last in table iteration order. -/
theorem last_match_wins (table : List (String × List String))
    (recs : List Rec) (i : ℕ) (h : i < recs.length)
    (h' : i < (classify table recs).length)
    (hm : 2 ≤ (table.filter
        (fun q => entryMatches q.2 ((recs.get ⟨i, h⟩).description))).length) :
    Option.map Prod.fst
        ((table.filter
          (fun q => entryMatches q.2 ((recs.get ⟨i, h⟩).description))).getLast?) =
      some (((classify table recs).get ⟨i, h'⟩).company) := by
  have hcomp : ((classify table recs).get ⟨i, h'⟩).company =
      finalCompany table (recs.get ⟨i, h⟩).description
        (recs.get ⟨i, h⟩).company := by
    have hg : (classify table recs).get ⟨i, h'⟩ =
        { recs.get ⟨i, h⟩ with
          company := finalCompany table (recs.get ⟨i, h⟩).description
            (recs.get ⟨i, h⟩).company } := by
      simp only [classify_eq_map, List.get_eq_getElem, List.getElem_map]
    rw [hg]
  have hne : (table.filter
      (fun q => entryMatches q.2 ((recs.get ⟨i, h⟩).description))) ≠ [] := by
    intro hnil; rw [hnil] at hm; simp at hm
  obtain ⟨y, hy⟩ := Option.isSome_iff_exists.mp (List.getLast?_isSome.mpr hne)
  rw [hcomp, finalCompany_eq_getLast, hy]
  rfl

/-- Witness for `last_match_wins`: the record `"x mart"` matches both
entries of the table `[("A", ["x"]), ("B", ["x"])]` and ends up labelled
`"B"`, the later entry. -/
theorem last_match_wins_witness :
    Option.map Prod.fst
        ((([("A", ["x"]), ("B", ["x"])] : List (String × List String)).filter
          (fun q => entryMatches q.2
            ((([⟨"x mart", 1, "T", 1, "Income", "Other"⟩] : List Rec).get
              ⟨0, by decide⟩).description))).getLast?) =
      some (((classify [("A", ["x"]), ("B", ["x"])]
          [⟨"x mart", 1, "T", 1, "Income", "Other"⟩]).get
        ⟨0, by decide⟩).company) :=
  last_match_wins [("A", ["x"]), ("B", ["x"])]
    [⟨"x mart", 1, "T", 1, "Income", "Other"⟩] 0 (by decide) (by decide)
    (by decide)

/-! ## Helper lemmas about the dynamic inference -/

theorem mem_insertNew (c n : String) (acc : List String) :
    c ∈ insertNew n acc ↔ c = n ∨ c ∈ acc := by
  unfold insertNew
  by_cases h : n ∈ acc
  · rw [if_pos h]
    constructor
    · exact Or.inr
    · rintro (rfl | hc)
      · exact h
      · exact hc
  · rw [if_neg h]
    simp [List.mem_append, or_comm]

theorem mem_revStep (acc : List String) (r : Rec) (c : String) :
    c ∈ revStep acc r ↔
      c ∈ acc ∨ (revenueName r.description = c ∧ c ≠ "") := by
  unfold revStep
  by_cases hn : revenueName r.description = ""
  · simp only [hn, ne_eq, not_true_eq_false, if_false]
    constructor
    · exact Or.inl
    · rintro (hc | ⟨rfl, hne⟩)
      · exact hc
      · exact absurd rfl hne
  · rw [if_pos hn, mem_insertNew]
    constructor
    · rintro (rfl | hc)
      · exact Or.inr ⟨rfl, hn⟩
      · exact Or.inl hc
    · rintro (hc | ⟨rfl, _⟩)
      · exact Or.inr hc
      · exact Or.inl rfl

theorem mem_revFold (l : List Rec) :
    ∀ (acc : List String) (c : String),
      c ∈ l.foldl revStep acc ↔
        c ∈ acc ∨ ∃ r ∈ l, revenueName r.description = c ∧ c ≠ "" := by
  induction l with
  | nil => intro acc c; simp
  | cons r rest ih =>
    intro acc c
    rw [List.foldl_cons, ih, mem_revStep]
    constructor
    · rintro ((hc | ⟨hn, hne⟩) | ⟨r', hr', hn, hne⟩)
      · exact Or.inl hc
      · exact Or.inr ⟨r, List.mem_cons_self r rest, hn, hne⟩
      · exact Or.inr ⟨r', List.mem_cons_of_mem r hr', hn, hne⟩
    · rintro (hc | ⟨r', hr', hn, hne⟩)
      · exact Or.inl (Or.inl hc)
      · rcases List.mem_cons.mp hr' with rfl | hr''
        · exact Or.inl (Or.inr ⟨hn, hne⟩)
        · exact Or.inr ⟨r', hr'', hn, hne⟩

theorem mem_revenueCompanies (recs : List Rec) (c : String) :
    c ∈ revenueCompanies recs ↔
      ∃ r ∈ recs, 0 < r.amount ∧
        containsL ("Revenue").data r.description.data = true ∧
        revenueName r.description = c ∧ c ≠ "" := by
  unfold revenueCompanies
  rw [mem_revFold]
  constructor
  · rintro (hc | ⟨r, hr, hn, hne⟩)
    · exact absurd hc (List.not_mem_nil c)
    · obtain ⟨hrm, hp⟩ := List.mem_filter.mp hr
      simp only [Bool.and_eq_true, decide_eq_true_eq] at hp
      exact ⟨r, hrm, hp.1, hp.2, hn, hne⟩
  · rintro ⟨r, hrm, ha, hcont, hn, hne⟩
    refine Or.inr ⟨r, List.mem_filter.mpr ⟨hrm, ?_⟩, hn, hne⟩
    simp only [Bool.and_eq_true, decide_eq_true_eq]
    exact ⟨ha, hcont⟩

theorem mem_hqStep (acc : List String) (r : Rec) (c : String) :
    c ∈ hqStep acc r ↔
      c ∈ acc ∨ (∃ g, extractWage r.description.data = some g ∧
        (⟨trimL g⟩ : String) = "Best Inc" ∧ c = "Best Inc") := by
  unfold hqStep
  cases hg : extractWage r.description.data with
  | none =>
    dsimp only
    constructor
    · exact Or.inl
    · rintro (hc | ⟨g, hgg, _⟩)
      · exact hc
      · exact Option.noConfusion hgg
  | some g =>
    dsimp only
    by_cases hb : (⟨trimL g⟩ : String) = "Best Inc"
    · rw [if_pos hb, mem_insertNew]
      constructor
      · rintro (rfl | hc)
        · exact Or.inr ⟨g, rfl, hb, hb⟩
        · exact Or.inl hc
      · rintro (hc | ⟨g', hgg, _, rfl⟩)
        · exact Or.inr hc
        · exact Or.inl hb.symm
    · rw [if_neg hb]
      constructor
      · exact Or.inl
      · rintro (hc | ⟨g', hgg, hb', _⟩)
        · exact hc
        · cases hgg
          exact absurd hb' hb

theorem mem_hqFold (l : List Rec) :
    ∀ (acc : List String) (c : String),
      c ∈ l.foldl hqStep acc ↔
        c ∈ acc ∨ ∃ r ∈ l, ∃ g, extractWage r.description.data = some g ∧
          (⟨trimL g⟩ : String) = "Best Inc" ∧ c = "Best Inc" := by
  induction l with
  | nil => intro acc c; simp
  | cons r rest ih =>
    intro acc c
    rw [List.foldl_cons, ih, mem_hqStep]
    constructor
    · rintro ((hc | ⟨g, hgg, hb, hbc⟩) | ⟨r', hr', hrest⟩)
      · exact Or.inl hc
      · exact Or.inr ⟨r, List.mem_cons_self r rest, g, hgg, hb, hbc⟩
      · exact Or.inr ⟨r', List.mem_cons_of_mem r hr', hrest⟩
    · rintro (hc | ⟨r', hr', hrest⟩)
      · exact Or.inl (Or.inl hc)
      · rcases List.mem_cons.mp hr' with rfl | hr''
        · exact Or.inl (Or.inr hrest)
        · exact Or.inr ⟨r', hr'', hrest⟩

theorem mem_hqCompanies (recs : List Rec) (c : String) :
    c ∈ hqCompanies recs ↔
      ∃ r ∈ recs, containsL ("Daily Wage").data r.description.data = true ∧
        ∃ g, extractWage r.description.data = some g ∧
          (⟨trimL g⟩ : String) = "Best Inc" ∧ c = "Best Inc" := by
  unfold hqCompanies
  rw [mem_hqFold]
  constructor
  · rintro (hc | ⟨r, hr, hrest⟩)
    · exact absurd hc (List.not_mem_nil c)
    · obtain ⟨hrm, hp⟩ := List.mem_filter.mp hr
      exact ⟨r, hrm, hp, hrest⟩
  · rintro ⟨r, hrm, hp, hrest⟩
    exact Or.inr ⟨r, List.mem_filter.mpr ⟨hrm, hp⟩, hrest⟩

theorem mem_foldl_insertNew_of_mem (l : List String) :
    ∀ (acc : List String) (c : String), c ∈ acc →
      c ∈ l.foldl (fun acc x => insertNew x acc) acc := by
  induction l with
  | nil => intro acc c hc; exact hc
  | cons x rest ih =>
    intro acc c hc
    rw [List.foldl_cons]
    exact ih _ _ ((mem_insertNew c x acc).mpr (Or.inr hc))

/-! ## Claim theorems -/

/-- **C1 counterexample**: a row with amount `0` gets polarity `Expense`,
refuting "rows with zero or positive amount get polarity Income". -/
theorem polarity_zero_is_expense :
    incomeOrExpense 0 = "Expense" ∧ incomeOrExpense 0 ≠ "Income" := by decide

/-- **C1 (amended)**: the derived polarity is `Expense` iff the original
amount is *non-positive* (`amount ≤ 0`); only strictly positive amounts get
polarity `Income` (line 422: `'Income' if x > 0 else 'Expense'`). -/
theorem polarity_iff_sign (x : ℚ) :
    (incomeOrExpense x = "Expense" ↔ x ≤ 0) ∧
    (incomeOrExpense x = "Income" ↔ 0 < x) := by
  unfold incomeOrExpense
  by_cases h : 0 < x
  · rw [if_pos h]
    constructor
    · constructor
      · intro hc; exact absurd hc (by decide)
      · intro hle; exact absurd h (not_lt.mpr hle)
    · exact ⟨fun _ => h, fun _ => rfl⟩
  · rw [if_neg h]
    constructor
    · exact ⟨fun _ => not_lt.mp h, fun _ => rfl⟩
    · constructor
      · intro hc; exact absurd hc (by decide)
      · intro hlt; exact absurd hlt h

/-- **C2 counterexample**: a record whose original amount is `-100` — not
positive — still contributes the revenue company `"Acme"`, because
`get_companies` runs after `update_data` replaced `Amount` by its absolute
value (line 423 precedes line 426). -/
theorem revenue_pass_accepts_negative_amount :
    Except.map getCompanies
        (loadRows [["Acme Revenue", "1", "Sale", "-100", "1"]]) =
      Except.ok [("Acme", ["acme"])] ∧
    parseRat "-100" = some (-100) ∧ ¬ ((0 : ℚ) < -100) := by decide

/-- **C2 (amended)**: a record contributes a company to the revenue pass iff
the `Amount` column `get_companies` sees — the magnitude, since the pass
runs after the absolute value was taken — is positive (equivalently the
original amount is non-zero) and its description contains `"Revenue"`; the
contributed name is the trimmed text before the first `" Revenue"` and must
be non-empty, and each such company enters the inferred table with its
lower-cased name as sole keyword. -/
theorem revenue_pass_characterization :
    (∀ (recs : List Rec) (c : String),
      c ∈ revenueCompanies recs ↔
        ∃ r ∈ recs, 0 < r.amount ∧
          containsL ("Revenue").data r.description.data = true ∧
          revenueName r.description = c ∧ c ≠ "") ∧
    (∀ x : ℚ, 0 < ratAbs x ↔ x ≠ 0) ∧
    (∀ (recs : List Rec) (c : String), c ∈ revenueCompanies recs →
      (c, [lowerS c]) ∈ getCompanies recs) := by
  refine ⟨mem_revenueCompanies, ?_, ?_⟩
  · intro x
    unfold ratAbs
    by_cases h : x < 0
    · rw [if_pos h]
      exact iff_of_true (neg_pos.mpr h) (ne_of_lt h)
    · rw [if_neg h]
      constructor
      · exact ne_of_gt
      · intro hne
        exact lt_of_le_of_ne (not_lt.mp h) (Ne.symm hne)
  · intro recs c hc
    exact List.mem_map_of_mem _ (mem_foldl_insertNew_of_mem _ _ _ hc)

/-- Witness for `revenue_pass_characterization`: the single record
`"Acme Revenue"` with magnitude 100 puts `("Acme", ["acme"])` into the
inferred table. -/
theorem revenue_pass_characterization_witness :
    ("Acme", [lowerS "Acme"]) ∈
      getCompanies [⟨"Acme Revenue", 1, "Sale", 100, "Income", "Other"⟩] :=
  revenue_pass_characterization.2.2
    [⟨"Acme Revenue", 1, "Sale", 100, "Income", "Other"⟩] "Acme" (by decide)

/-- **C5**: the headquarters pass keeps only records whose description
contains `"Daily Wage"` and whose extracted, stripped group from the
pattern `(<name> Daily Wage)` is literally `"Best Inc"`; description
`"(Best Inc Daily Wage)"` yields the table entry `"Best Inc"` (with keyword
`"best inc"`), while any other extracted name (e.g. `"John Doe"`) yields
nothing. -/
theorem hq_pass_best_inc_only :
    (∀ (recs : List Rec) (c : String),
      c ∈ hqCompanies recs ↔
        (c = "Best Inc" ∧ ∃ r ∈ recs,
          containsL ("Daily Wage").data r.description.data = true ∧
          ∃ g, extractWage r.description.data = some g ∧
            (⟨trimL g⟩ : String) = "Best Inc")) ∧
    extractWage ("(Best Inc Daily Wage)").data = some ("Best Inc").data ∧
    hqCompanies [⟨"(Best Inc Daily Wage)", 1, "Wage", 120, "Expense", "Other"⟩] =
      ["Best Inc"] ∧
    getCompanies [⟨"(Best Inc Daily Wage)", 1, "Wage", 120, "Expense", "Other"⟩] =
      [("Best Inc", ["best inc"])] ∧
    extractWage ("(John Doe Daily Wage)").data = some ("John Doe").data ∧
    hqCompanies [⟨"(John Doe Daily Wage)", 1, "Wage", 120, "Expense", "Other"⟩] =
      [] := by
  refine ⟨?_, by decide, by decide, by decide, by decide, by decide⟩
  intro recs c
  rw [mem_hqCompanies]
  constructor
  · rintro ⟨r, hrm, hcont, g, hgg, hb, rfl⟩
    exact ⟨rfl, r, hrm, hcont, g, hgg, hb⟩
  · rintro ⟨rfl, r, hrm, hcont, g, hgg, hb⟩
    exact ⟨r, hrm, hcont, g, hgg, hb, rfl⟩

/-- **C7**: loading the two example rows and classifying with the static
table `{"Acme": ["acme"]}` yields exactly the two claimed records in input
order. -/
theorem end_to_end_example :
    Except.map (classify [("Acme", ["acme"])])
        (loadRows [["Acme Revenue", "1", "Sale", "100", "1"],
                   ["Rent Payment", "1", "Rent", "-50", "2"]]) =
      Except.ok [⟨"Acme Revenue", 1, "Sale", 100, "Income", "Acme"⟩,
                 ⟨"Rent Payment", 1, "Rent", 50, "Expense", "Other"⟩] := by
  decide

/-- **C4 (code-bug exhibit)**: the classifier calls
`Series.str.contains('|'.join(keywords))` with pandas' default
`regex=True`, so keywords act as regular expressions instead of the
literal substrings the matching rule describes.  Failing input: the table
inferred from `"a.c Revenue"` has the entry `("a.c", ["a.c"])`, and the
record `"abc store"` — which does *not* contain `"a.c"` as a literal
substring — is nevertheless labelled `"a.c"` (the `.` acts as a wildcard),
where the claim requires it to keep `"Other"`. -/
theorem keyword_regex_matching_at_failing_input :
    updateData "t.csv" (some [["a.c Revenue", "1", "Sale", "100", "1"],
                              ["abc store", "1", "Purchase", "-5", "2"]]) =
      ⟨some [⟨"a.c Revenue", 1, "Sale", 100, "Income", "a.c"⟩,
             ⟨"abc store", 1, "Purchase", 5, "Expense", "a.c"⟩],
        "File uploaded successfully!"⟩ ∧
    containsL ("a.c").data (lowerL ("abc store").data) = false ∧
    entryMatches ["a.c"] "abc store" = true := by decide

/-- **C8**: the filtered subset contains exactly the records whose day lies
in the inclusive range and whose company and type belong to the selected
sets; in particular with range `[5,5]` and every company and type of the
table selected, exactly the records with day 5 remain. -/
theorem filter_subset_spec :
    (∀ (lo hi : ℚ) (cs ts : List String) (recs : List Rec) (r : Rec),
      r ∈ filterRecords lo hi cs ts recs ↔
        r ∈ recs ∧ lo ≤ r.day ∧ r.day ≤ hi ∧ r.company ∈ cs ∧ r.type ∈ ts) ∧
    (∀ recs : List Rec,
      filterRecords 5 5 (recs.map Rec.company) (recs.map Rec.type) recs =
        recs.filter (fun r => decide (r.day = 5))) := by
  constructor
  · intro lo hi cs ts recs r
    unfold filterRecords
    rw [List.mem_filter]
    simp [Bool.and_eq_true, decide_eq_true_eq, and_assoc]
  · intro recs
    unfold filterRecords
    refine List.filter_congr ?_
    intro r hr
    have hc : r.company ∈ recs.map Rec.company := List.mem_map_of_mem _ hr
    have ht : r.type ∈ recs.map Rec.type := List.mem_map_of_mem _ hr
    rw [Bool.eq_iff_iff]
    simp only [Bool.and_eq_true, decide_eq_true_eq, and_assoc]
    constructor
    · rintro ⟨h1, h2, _, _⟩
      exact le_antisymm h2 h1
    · intro h5
      exact ⟨le_of_eq h5.symm, le_of_eq h5, hc, ht⟩

/-- Any bad row fails the whole `loadRows`. -/
theorem loadRows_error_of_bad_row (rows : List (List String))
    (row : List String) (hmem : row ∈ rows) (e : String)
    (he : parseRow row = Except.error e) :
    ∃ e', loadRows rows = Except.error e' := by
  induction rows with
  | nil => cases hmem
  | cons r rest ih =>
    rcases List.mem_cons.mp hmem with rfl | hmem'
    · exact ⟨e, by simp [loadRows, he]⟩
    · cases hp : parseRow r with
      | error e1 => exact ⟨e1, by simp [loadRows, hp]⟩
      | ok r1 =>
        obtain ⟨e', he'⟩ := ih hmem'
        exact ⟨e', by simp [loadRows, hp, he']⟩

/-- `update_data` on a `.csv` file reduces to the processing result. -/
theorem updateData_some_eq (f : String) (rows : List (List String))
    (h : endsWithL (".csv").data f.data = true) :
    updateData f (some rows) =
      (match loadAndClassify rows with
        | Except.error e => ⟨none, "Error processing file: " ++ e⟩
        | Except.ok recs => ⟨some recs, "File uploaded successfully!"⟩) := by
  unfold updateData
  rw [if_pos h]

/-- **C6**: a load either fully fails — the stored value is `none` and the
status is a descriptive message (the wrong-extension text or an
`Error processing file:` reason) — or fully succeeds with the complete
normalized and classified table; a wrong extension always produces the
fixed failure message, any row with a non-numeric `Day`/`Amount` fails the
entire load, and an undecodable upload fails the load.  No exception
escapes: `updateData` is a total function into a result value. -/
theorem load_all_or_nothing :
    (∀ (f : String) (c : Option (List (List String))),
      ((updateData f c).stored = none ∧
        ((updateData f c).message = "Please upload a CSV file" ∨
          ∃ e, (updateData f c).message = "Error processing file: " ++ e)) ∨
        ∃ rows recs, c = some rows ∧ loadRows rows = Except.ok recs ∧
          updateData f c =
            ⟨some (classify (getCompanies recs) recs),
              "File uploaded successfully!"⟩) ∧
    (∀ (f : String) (c : Option (List (List String))),
      endsWithL (".csv").data f.data = false →
        updateData f c = ⟨none, "Please upload a CSV file"⟩) ∧
    (∀ (f : String) (rows : List (List String)) (row : List String),
      row ∈ rows → (∃ e, parseRow row = Except.error e) →
        (updateData f (some rows)).stored = none) ∧
    (∀ f : String, endsWithL (".csv").data f.data = true →
      updateData f none =
        ⟨none, "Error processing file: could not decode file"⟩) := by
  have hext : ∀ (f : String) (c : Option (List (List String))),
      endsWithL (".csv").data f.data = false →
        updateData f c = ⟨none, "Please upload a CSV file"⟩ := by
    intro f c h
    unfold updateData
    rw [if_neg (by rw [h]; exact Bool.false_ne_true)]
  refine ⟨?_, hext, ?_, ?_⟩
  · intro f c
    by_cases hcsv : endsWithL (".csv").data f.data
    · cases c with
      | none =>
        left
        unfold updateData
        rw [if_pos hcsv]
        exact ⟨rfl, Or.inr ⟨"could not decode file", rfl⟩⟩
      | some rows =>
        rw [updateData_some_eq f rows hcsv]
        unfold loadAndClassify
        cases hlr : loadRows rows with
        | error e => exact Or.inl ⟨rfl, Or.inr ⟨e, rfl⟩⟩
        | ok recs0 => exact Or.inr ⟨rows, recs0, rfl, hlr, rfl⟩
    · left
      rw [hext f c (Bool.not_eq_true _ ▸ hcsv)]
      exact ⟨rfl, Or.inl rfl⟩
  · rintro f rows row hmem ⟨e, he⟩
    obtain ⟨e', he'⟩ := loadRows_error_of_bad_row rows row hmem e he
    by_cases hcsv : endsWithL (".csv").data f.data
    · rw [updateData_some_eq f rows hcsv]
      unfold loadAndClassify
      rw [he']
    · rw [hext f (some rows) (Bool.not_eq_true _ ▸ hcsv)]
  · intro f h
    unfold updateData
    rw [if_pos h]

/-- Witness for `load_all_or_nothing`: a row with non-numeric `Day` (`"x"`)
makes the whole load fail (the store receives `none`). -/
theorem load_all_or_nothing_witness :
    (updateData "t.csv" (some [["d", "x", "ty", "1", "9"]])).stored = none :=
  load_all_or_nothing.2.2.1 "t.csv" [["d", "x", "ty", "1", "9"]]
    ["d", "x", "ty", "1", "9"] (List.mem_singleton.mpr rfl)
    ⟨"Unable to parse string \"x\"", by decide⟩

/-- **C10**: the Dash `dcc.Store` receives the callback's first output, so
its contents after a load are exactly `(updateData …).stored`, whatever was
stored before; in particular every failing load (e.g. a wrong file
extension) stores `none`, clearing any previously loaded table. -/
theorem failed_load_clears_store (prev : Option (List Rec)) (f : String)
    (c : Option (List (List String))) :
    (storeAfterLoad prev f c = (updateData f c).stored) ∧
    ((updateData f c).stored = none → storeAfterLoad prev f c = none) ∧
    (endsWithL (".csv").data f.data = false → storeAfterLoad prev f c = none) := by
  refine ⟨rfl, fun h => h, fun h => ?_⟩
  unfold storeAfterLoad updateData
  rw [if_neg (by rw [h]; exact Bool.false_ne_true)]

/-- Witness for `failed_load_clears_store`: after a previously successful
load, uploading `"t.txt"` clears the store. -/
theorem failed_load_clears_store_witness :
    storeAfterLoad (some [⟨"d", 1, "t", 1, "Income", "Other"⟩]) "t.txt" none =
      none :=
  (failed_load_clears_store (some [⟨"d", 1, "t", 1, "Income", "Other"⟩])
    "t.txt" none).2.2 (by decide)

example : parseRat "100" = some 100 := by decide

example : parseRat "-50" = some (-50) := by decide

example : incomeOrExpense 0 = "Expense" := by decide

example :
    loadRows [["Acme Revenue", "1", "Sale", "100", "1"]] =
      Except.ok [{ description := "Acme Revenue", day := 1, type := "Sale",
                   amount := 100, polarity := "Income", company := "Other" }] := by
  decide

example :
    getCompanies [{ description := "Acme Revenue", day := 1, type := "Sale",
                    amount := 100, polarity := "Income", company := "Other" }] =
      [("Acme", ["acme"])] := by decide

example : extractWage ("(Best Inc Daily Wage)").data = some ("Best Inc").data := by
  decide

end BigAmbitions
